import Mathlib

/-!
Verification of the deterministic translation helpers of the cri-containerd
server package: image-reference normalization, repo-digest/repo-tag
derivation, container-user resolution, transactional streaming-pipe
provisioning, and runtime/network status aggregation.

Strings are modelled as Lean `String`s (lists of characters), matching Go's
treatment of references, user specifications and paths as plain strings.
The `Status` aggregator is embedded directly from `pkg/server/status.go`.
The helper functions exercised by `pkg/server/helpers_test.go`
(`normalizeImageRef`, `getRepoDigestAndTag`, `getUserFromImage`,
`prepareStreamingPipes`) have no implementation file in the repository
snapshot, so they are modelled from the specification, constrained by the
expectations of the table-driven tests.
-/

/-! ## Character-list utilities -/

/-- Split a character list at the first occurrence of `sep`: `some (before,
after)` when `sep` occurs, `none` otherwise. This is the splitting primitive
for the reference grammar (host before the first `/`, digest after the first
`@`, tag after the `:`). -/
def splitFirst (sep : Char) : List Char → Option (List Char × List Char)
  | [] => none
  | c :: rest =>
    if c = sep then some ([], rest)
    else
      match splitFirst sep rest with
      | none => none
      | some (a, b) => some (c :: a, b)

theorem splitFirst_eq_none_of_not_mem {sep : Char} {s : List Char} (h : sep ∉ s) :
    splitFirst sep s = none := by
  induction s with
  | nil => rfl
  | cons c rest ih =>
    have hc : ¬ c = sep := fun e => h (e ▸ List.mem_cons_self c rest)
    have hrest : sep ∉ rest := fun m => h (List.mem_cons_of_mem c m)
    simp [splitFirst, hc, ih hrest]

theorem splitFirst_append {sep : Char} {a : List Char} (b : List Char) (h : sep ∉ a) :
    splitFirst sep (a ++ sep :: b) = some (a, b) := by
  induction a with
  | nil => simp [splitFirst]
  | cons c rest ih =>
    have hc : ¬ c = sep := fun e => h (e ▸ List.mem_cons_self c rest)
    have hrest : sep ∉ rest := fun m => h (List.mem_cons_of_mem c m)
    simp [splitFirst, hc, ih hrest]

theorem splitFirst_some {sep : Char} {s a b : List Char}
    (h : splitFirst sep s = some (a, b)) : sep ∉ a ∧ s = a ++ sep :: b := by
  induction s generalizing a b with
  | nil => simp [splitFirst] at h
  | cons c rest ih =>
    by_cases hc : c = sep
    · subst hc
      simp [splitFirst] at h
      obtain ⟨ha, hb⟩ := h
      subst ha; subst hb
      exact ⟨List.not_mem_nil c, rfl⟩
    · simp [splitFirst, hc] at h
      cases hr : splitFirst sep rest with
      | none => rw [hr] at h; simp at h
      | some p =>
        obtain ⟨a', b'⟩ := p
        rw [hr] at h
        simp at h
        obtain ⟨ha, hb⟩ := h
        obtain ⟨hmem, heq⟩ := ih hr
        subst ha; subst hb
        refine ⟨?_, by simp [heq]⟩
        intro hm
        rcases List.mem_cons.mp hm with h1 | h2
        · exact hc h1.symm
        · exact hmem h2

theorem not_mem_of_all_eq_true {p : Char → Bool} {l : List Char}
    (h : l.all p = true) {c : Char} (hc : p c = false) : c ∉ l := by
  intro hm
  have := List.all_eq_true.mp h c hm
  rw [hc] at this
  exact Bool.false_ne_true this

/-! ## The reference grammar and `normalizeImageRef`

Modelled from the spec: the implementation file holding `normalizeImageRef`
is not part of the repository snapshot (only `helpers_test.go` exercises
it).  The reference-parsing collaborator is embedded as an executable
grammar: a reference is `[host/]path[:tag][@digest]`, where the leading
segment is a host only when it contains a dot or a colon or is exactly
`localhost`; path and tag draw from restricted character sets that exclude
the separators; a digest is `algorithm:hex`. -/

/-- Characters allowed in a repository path: lowercase alphanumerics and the
separators dot, underscore, dash, slash.  Notably excludes `:` and `@`. -/
def pathChar (c : Char) : Bool :=
  c.isLower || c.isDigit || c = '.' || c = '_' || c = '-' || c = '/'

/-- A repository path: nonempty, every character a `pathChar`. -/
def validPath (p : List Char) : Bool :=
  !p.isEmpty && p.all pathChar

/-- Characters allowed in a tag: alphanumerics, dot, underscore, dash.
Notably excludes `:`, `/` and `@`. -/
def tagChar (c : Char) : Bool :=
  c.isAlphanum || c = '.' || c = '_' || c = '-'

/-- A tag: nonempty, every character a `tagChar`. -/
def validTag (t : List Char) : Bool :=
  !t.isEmpty && t.all tagChar

/-- Characters allowed in a digest algorithm name. -/
def algoChar (c : Char) : Bool :=
  c.isLower || c.isDigit

/-- Characters allowed in the hex part of a digest. -/
def hexChar (c : Char) : Bool :=
  c.isDigit || ('a' ≤ c && c ≤ 'f')

/-- A digest is `algorithm:hex` with nonempty components. -/
def validDigest (d : List Char) : Bool :=
  match splitFirst ':' d with
  | some (algo, hex) =>
    !algo.isEmpty && algo.all algoChar && !hex.isEmpty && hex.all hexChar
  | none => false

/-- A leading segment is a registry host exactly when it contains a dot or a
colon (e.g. a port) or is the literal `localhost`; otherwise it is the first
path segment (the well-known single-name convention). -/
def hostLike (h : List Char) : Bool :=
  decide ('.' ∈ h) || decide (':' ∈ h) || decide (h = "localhost".toList)

/-- A parsed image reference: optional registry host, repository path,
optional tag, optional digest.  This is the spec's ImageReference record. -/
structure RawRef where
  host : Option (List Char)
  path : List Char
  tag : Option (List Char)
  digest : Option (List Char)
deriving DecidableEq

/-- Parse `path[:tag]` once the host has been split off, attaching the host
and an already-parsed digest. -/
def parseHostRem (host : Option (List Char)) (rem : List Char)
    (d : Option (List Char)) : Option RawRef :=
  match splitFirst ':' rem with
  | none => if validPath rem then some ⟨host, rem, none, d⟩ else none
  | some (p, t) =>
    if validPath p && validTag t then some ⟨host, p, some t, d⟩ else none

/-- Parse `host?/path[:tag]` (the part of a reference before any `@`),
attaching an already-parsed digest. -/
def parseNameTag (nt : List Char) (d : Option (List Char)) : Option RawRef :=
  match splitFirst '/' nt with
  | none => parseHostRem none nt d
  | some (first, rest) =>
    if hostLike first then parseHostRem (some first) rest d
    else parseHostRem none nt d

/-- Parse a full reference string `[host/]path[:tag][@digest]`. -/
def parseRefL (s : List Char) : Option RawRef :=
  match splitFirst '@' s with
  | none => parseNameTag s none
  | some (nt, d) => if validDigest d then parseNameTag nt (some d) else none

/-- The default registry host substituted when a reference names none. -/
def defaultHost : List Char := "docker.io".toList

/-- The default namespace prepended to single-segment paths on the default
registry. -/
def defaultNamespace : List Char := "library".toList

/-- The default tag applied when a reference carries neither tag nor
digest. -/
def defaultTag : List Char := "latest".toList

/-- Normalization of a parsed reference: substitute the default host, prepend
the default namespace to a single-segment path on the default host, apply the
default tag when neither tag nor digest is present, and keep only the digest
when one is present (a digest-qualified reference is content-addressed, so no
tag is recorded — the behavior `TestNormalizeImageRef` fixes for references
carrying both). -/
def normalizeParsed (r : RawRef) : RawRef :=
  let host := r.host.getD defaultHost
  let path :=
    if host = defaultHost ∧ '/' ∉ r.path then defaultNamespace ++ '/' :: r.path
    else r.path
  match r.digest with
  | some d => ⟨some host, path, none, some d⟩
  | none =>
    match r.tag with
    | some t => ⟨some host, path, some t, none⟩
    | none => ⟨some host, path, some defaultTag, none⟩

/-- The canonical string form of a parsed reference, as a character list. -/
def refCharsL (r : RawRef) : List Char :=
  let tp := r.path
    ++ (match r.tag with | some t => ':' :: t | none => [])
    ++ (match r.digest with | some d => '@' :: d | none => [])
  match r.host with
  | some h => h ++ '/' :: tp
  | none => tp

/-- The canonical string form of a parsed reference. -/
def refString (r : RawRef) : String :=
  String.mk (refCharsL r)

/-- The name part (host and path, no tag or digest) of a reference. -/
def nameString (r : RawRef) : String :=
  String.mk (match r.host with | some h => h ++ '/' :: r.path | none => r.path)

/-- Parse a reference string. -/
def parseRef (s : String) : Option RawRef :=
  parseRefL s.toList

/-- Modelled from the spec: `normalizeImageRef` (absent from the repository
snapshot; exercised by `TestNormalizeImageRef`) parses a raw reference string
with the reference grammar and produces its fully qualified form, or fails on
a string the grammar rejects. -/
def normalizeImageRef (s : String) : Option RawRef :=
  (parseRef s).map normalizeParsed

/-! ## Invariants of parsed and normalized references -/

theorem not_mem_of_splitFirst_eq_none {sep : Char} {s : List Char}
    (h : splitFirst sep s = none) : sep ∉ s := by
  induction s with
  | nil => simp
  | cons c rest ih =>
    by_cases hc : c = sep
    · simp [splitFirst, hc] at h
    · simp [splitFirst, hc] at h
      cases hr : splitFirst sep rest with
      | none =>
        intro hm
        rcases List.mem_cons.mp hm with h1 | h2
        · exact hc h1.symm
        · exact ih hr h2
      | some p => rw [hr] at h; simp at h

theorem validPath_parts {p : List Char} (h : validPath p = true) :
    p ≠ [] ∧ p.all pathChar = true := by
  unfold validPath at h
  rw [Bool.and_eq_true] at h
  exact ⟨by simpa using h.1, h.2⟩

theorem validPath_not_mem_colon {p : List Char} (h : validPath p = true) : ':' ∉ p :=
  not_mem_of_all_eq_true (validPath_parts h).2 (by decide)

theorem validPath_not_mem_at {p : List Char} (h : validPath p = true) : '@' ∉ p :=
  not_mem_of_all_eq_true (validPath_parts h).2 (by decide)

theorem validTag_parts {t : List Char} (h : validTag t = true) :
    t ≠ [] ∧ t.all tagChar = true := by
  unfold validTag at h
  rw [Bool.and_eq_true] at h
  exact ⟨by simpa using h.1, h.2⟩

theorem validTag_not_mem_at {t : List Char} (h : validTag t = true) : '@' ∉ t :=
  not_mem_of_all_eq_true (validTag_parts h).2 (by decide)

theorem validDigest_not_mem_at {d : List Char} (h : validDigest d = true) : '@' ∉ d := by
  unfold validDigest at h
  cases hsp : splitFirst ':' d with
  | none => rw [hsp] at h; simp at h
  | some p =>
    obtain ⟨algo, hex⟩ := p
    rw [hsp] at h
    simp only [Bool.and_eq_true] at h
    obtain ⟨hmem, heq⟩ := splitFirst_some hsp
    rw [heq]
    intro hm
    rcases List.mem_append.mp hm with h1 | h2
    · exact not_mem_of_all_eq_true h.1.1.2 (by decide) h1
    · rcases List.mem_cons.mp h2 with h3 | h4
      · exact absurd h3 (by decide)
      · exact not_mem_of_all_eq_true h.2 (by decide) h4

theorem validPath_prepend {p : List Char} (h : validPath p = true) :
    validPath (defaultNamespace ++ '/' :: p) = true := by
  unfold validPath at *
  rw [Bool.and_eq_true] at h ⊢
  constructor
  · simp [defaultNamespace]
  · rw [List.all_append, Bool.and_eq_true, List.all_cons, Bool.and_eq_true]
    exact ⟨by decide, by decide, h.2⟩

/-- The invariants a normalized reference satisfies: the host is populated
and host-like, the path is valid and the default-namespace rule can no longer
fire, and exactly one of tag and digest is populated (at least a tag whenever
no digest was supplied). -/
structure NF (r : RawRef) : Prop where
  host_ex : ∃ h, r.host = some h ∧ '/' ∉ h ∧ '@' ∉ h ∧ hostLike h = true
  path_ok : validPath r.path = true
  no_prepend : ¬ (r.host = some defaultHost ∧ '/' ∉ r.path)
  shape : (∃ t, r.tag = some t ∧ validTag t = true ∧ r.digest = none) ∨
    (∃ d, r.digest = some d ∧ validDigest d = true ∧ r.tag = none)

theorem parseHostRem_inv {host : Option (List Char)} {rem : List Char}
    {d : Option (List Char)} {r : RawRef} (h : parseHostRem host rem d = some r) :
    r.host = host ∧ validPath r.path = true ∧
    (∀ t, r.tag = some t → validTag t = true) ∧ r.digest = d := by
  unfold parseHostRem at h
  split at h
  · split at h
    · next hv =>
      obtain rfl := Option.some.inj h
      refine ⟨rfl, hv, ?_, rfl⟩
      intro t ht
      cases ht
    · cases h
  · split at h
    · next hv =>
      obtain rfl := Option.some.inj h
      rw [Bool.and_eq_true] at hv
      refine ⟨rfl, hv.1, ?_, rfl⟩
      intro t' ht'
      obtain rfl := Option.some.inj ht'
      exact hv.2
    · cases h

theorem parseNameTag_inv {nt : List Char} {d : Option (List Char)} {r : RawRef}
    (h : parseNameTag nt d = some r) :
    (∀ hh, r.host = some hh → '/' ∉ hh ∧ hostLike hh = true ∧ hh ⊆ nt) ∧
    validPath r.path = true ∧
    (∀ t, r.tag = some t → validTag t = true) ∧ r.digest = d := by
  unfold parseNameTag at h
  split at h
  · obtain ⟨hh, hp, ht, hd⟩ := parseHostRem_inv h
    refine ⟨?_, hp, ht, hd⟩
    intro hh' hh'eq
    rw [hh] at hh'eq; cases hh'eq
  · next first rest hsp =>
    obtain ⟨hmem, heq⟩ := splitFirst_some hsp
    split at h
    · next hl =>
      obtain ⟨hh, hp, ht, hd⟩ := parseHostRem_inv h
      refine ⟨?_, hp, ht, hd⟩
      intro hh' hh'eq
      rw [hh] at hh'eq
      obtain rfl := Option.some.inj hh'eq
      refine ⟨hmem, hl, ?_⟩
      rw [heq]
      exact List.subset_append_left _ _
    · obtain ⟨hh, hp, ht, hd⟩ := parseHostRem_inv h
      refine ⟨?_, hp, ht, hd⟩
      intro hh' hh'eq
      rw [hh] at hh'eq; cases hh'eq

theorem parseRefL_inv {s : List Char} {r : RawRef} (h : parseRefL s = some r) :
    (∀ hh, r.host = some hh → '/' ∉ hh ∧ '@' ∉ hh ∧ hostLike hh = true) ∧
    validPath r.path = true ∧
    (∀ t, r.tag = some t → validTag t = true) ∧
    (∀ dd, r.digest = some dd → validDigest dd = true) := by
  unfold parseRefL at h
  split at h
  · next hat =>
    have hs : '@' ∉ s := not_mem_of_splitFirst_eq_none hat
    obtain ⟨hhost, hp, ht, hd⟩ := parseNameTag_inv h
    refine ⟨?_, hp, ht, ?_⟩
    · intro hh hheq
      obtain ⟨h1, h2, h3⟩ := hhost hh hheq
      exact ⟨h1, fun hm => hs (h3 hm), h2⟩
    · intro dd hdd
      rw [hd] at hdd; cases hdd
  · next nt d hat =>
    obtain ⟨hna, hseq⟩ := splitFirst_some hat
    split at h
    · next hv =>
      obtain ⟨hhost, hp, ht, hd⟩ := parseNameTag_inv h
      refine ⟨?_, hp, ht, ?_⟩
      · intro hh hheq
        obtain ⟨h1, h2, h3⟩ := hhost hh hheq
        exact ⟨h1, fun hm => hna (h3 hm), h2⟩
      · intro dd hdd
        rw [hd] at hdd
        obtain rfl := Option.some.inj hdd
        exact hv
    · cases h

theorem NF_normalizeParsed {s : List Char} {r₀ : RawRef} (h : parseRefL s = some r₀) :
    NF (normalizeParsed r₀) := by
  obtain ⟨hhost, hp, ht, hd⟩ := parseRefL_inv h
  obtain ⟨host₀, path₀, tag₀, digest₀⟩ := r₀
  simp only at hhost hp ht hd
  have hostFacts : '/' ∉ host₀.getD defaultHost ∧ '@' ∉ host₀.getD defaultHost ∧
      hostLike (host₀.getD defaultHost) = true := by
    cases host₀ with
    | none => refine ⟨?_, ?_, ?_⟩ <;> decide
    | some hh => simpa using hhost hh rfl
  have pathOk : validPath (if host₀.getD defaultHost = defaultHost ∧ '/' ∉ path₀
      then defaultNamespace ++ '/' :: path₀ else path₀) = true := by
    split
    · exact validPath_prepend hp
    · exact hp
  have noPre : ¬ (some (host₀.getD defaultHost) = some defaultHost ∧
      '/' ∉ (if host₀.getD defaultHost = defaultHost ∧ '/' ∉ path₀
        then defaultNamespace ++ '/' :: path₀ else path₀)) := by
    split
    · rintro ⟨-, habs⟩
      exact habs (by simp)
    · next hcond =>
      rintro ⟨heq, hmem⟩
      exact hcond ⟨Option.some.inj heq, hmem⟩
  cases digest₀ with
  | some d =>
    exact ⟨⟨_, rfl, hostFacts.1, hostFacts.2.1, hostFacts.2.2⟩, pathOk, noPre,
      Or.inr ⟨d, rfl, hd d rfl, rfl⟩⟩
  | none =>
    cases tag₀ with
    | some t =>
      exact ⟨⟨_, rfl, hostFacts.1, hostFacts.2.1, hostFacts.2.2⟩, pathOk, noPre,
        Or.inl ⟨t, rfl, ht t rfl, rfl⟩⟩
    | none =>
      exact ⟨⟨_, rfl, hostFacts.1, hostFacts.2.1, hostFacts.2.2⟩, pathOk, noPre,
        Or.inl ⟨defaultTag, rfl, by decide, rfl⟩⟩

theorem parseRefL_refCharsL {r : RawRef} (nf : NF r) : parseRefL (refCharsL r) = some r := by
  obtain ⟨⟨h₀, hhe, hslash, hat, hlike⟩, hp, hnopre, hshape⟩ := nf
  obtain ⟨host, path, tag, digest⟩ := r
  simp only at hhe hp
  subst hhe
  rcases hshape with ⟨t, htag, hvt, hdig⟩ | ⟨d, hdig, hvd, htag⟩
  · simp only at htag hdig
    subst htag; subst hdig
    have hchars : refCharsL ⟨some h₀, path, some t, none⟩ = h₀ ++ '/' :: (path ++ ':' :: t) := by
      simp [refCharsL]
    rw [hchars]
    have hnat : '@' ∉ h₀ ++ '/' :: (path ++ ':' :: t) := by
      intro hm
      rcases List.mem_append.mp hm with h1 | h2
      · exact hat h1
      · rcases List.mem_cons.mp h2 with h3 | h4
        · exact absurd h3 (by decide)
        · rcases List.mem_append.mp h4 with h5 | h6
          · exact validPath_not_mem_at hp h5
          · rcases List.mem_cons.mp h6 with h7 | h8
            · exact absurd h7 (by decide)
            · exact validTag_not_mem_at hvt h8
    have e1 : splitFirst '@' (h₀ ++ '/' :: (path ++ ':' :: t)) = none :=
      splitFirst_eq_none_of_not_mem hnat
    have e2 : splitFirst '/' (h₀ ++ '/' :: (path ++ ':' :: t)) =
        some (h₀, path ++ ':' :: t) := splitFirst_append _ hslash
    have e3 : splitFirst ':' (path ++ ':' :: t) = some (path, t) :=
      splitFirst_append _ (validPath_not_mem_colon hp)
    simp [parseRefL, parseNameTag, parseHostRem, e1, e2, e3, hlike, hp, hvt]
  · simp only at htag hdig
    subst htag; subst hdig
    have hnat2 : '@' ∉ h₀ ++ '/' :: path := by
      intro hm
      rcases List.mem_append.mp hm with h1 | h2
      · exact hat h1
      · rcases List.mem_cons.mp h2 with h3 | h4
        · exact absurd h3 (by decide)
        · exact validPath_not_mem_at hp h4
    have hchars : refCharsL ⟨some h₀, path, none, some d⟩ =
        h₀ ++ '/' :: (path ++ '@' :: d) := by
      simp [refCharsL]
    rw [hchars]
    have e1 : splitFirst '@' (h₀ ++ '/' :: (path ++ '@' :: d)) =
        some (h₀ ++ '/' :: path, d) := by
      have : h₀ ++ '/' :: (path ++ '@' :: d) = (h₀ ++ '/' :: path) ++ '@' :: d := by
        simp
      rw [this]
      exact splitFirst_append _ hnat2
    have e2 : splitFirst '/' (h₀ ++ '/' :: path) = some (h₀, path) :=
      splitFirst_append _ hslash
    have e3 : splitFirst ':' path = none :=
      splitFirst_eq_none_of_not_mem (validPath_not_mem_colon hp)
    simp [parseRefL, parseNameTag, parseHostRem, e1, e2, e3, hlike, hp, hvd]

theorem normalizeParsed_NF {r : RawRef} (nf : NF r) : normalizeParsed r = r := by
  obtain ⟨⟨h₀, hhe, -, -, -⟩, hp, hnopre, hshape⟩ := nf
  obtain ⟨host, path, tag, digest⟩ := r
  simp only at hhe
  subst hhe
  have hcond : ¬ ((some h₀).getD defaultHost = defaultHost ∧ '/' ∉ path) := by
    rintro ⟨h1, h2⟩
    simp only [Option.getD_some] at h1
    exact hnopre ⟨by simp only at *; rw [h1], h2⟩
  rcases hshape with ⟨t, htag, -, hdig⟩ | ⟨d, hdig, -, htag⟩
  · simp only at htag hdig
    subst htag; subst hdig
    simp only [normalizeParsed, Option.getD_some]
    rw [if_neg (by simpa using hcond)]
  · simp only at htag hdig
    subst htag; subst hdig
    simp only [normalizeParsed, Option.getD_some]
    rw [if_neg (by simpa using hcond)]

/-! ## `getRepoDigestAndTag` -/

/-- Modelled from the spec: `getRepoDigestAndTag` (absent from the repository
snapshot; exercised by `TestGetRepoDigestAndTag`) derives the `(repoDigest,
repoTag)` pair from a normalized reference, a resolved content digest and the
schema-1 flag, following the spec's decision table: a digest-qualified
reference records no tag and its own string as repo digest; a tag-only
reference records its string as repo tag, and `name@digest` as repo digest
unless the manifest was schema 1, in which case no digest is recorded. -/
def getRepoDigestAndTag (r : RawRef) (digest : String) (schema1 : Bool) :
    String × String :=
  if r.digest.isSome then (refString r, "")
  else if schema1 then ("", refString r)
  else (nameString r ++ "@" ++ digest, refString r)

/-! ## `getUserFromImage` -/

/-- The numeric value of a digit string. -/
def digitsVal (l : List Char) : Nat :=
  l.foldl (fun n c => n * 10 + (c.toNat - '0'.toNat)) 0

/-- Parse a nonempty all-digit string as a natural number. -/
def parseNatDigits (l : List Char) : Option Nat :=
  if l ≠ [] ∧ l.all Char.isDigit then some (digitsVal l) else none

/-- Parse a base-10, optionally negative, integer. -/
def parseDec (l : List Char) : Option Int :=
  match l with
  | '-' :: rest => (parseNatDigits rest).map (fun n => -(n : Int))
  | _ => (parseNatDigits l).map (fun n => (n : Int))

/-- The first colon-separated field of a user string (the whole string when
it has no colon). -/
def firstField (u : String) : String :=
  match splitFirst ':' u.toList with
  | some (f, _) => String.mk f
  | none => u

/-- Modelled from the spec: `getUserFromImage` (absent from the repository
snapshot; exercised by `TestGetUserFromImage`) resolves an image user string
to a numeric uid or a symbolic user name.  The empty string yields neither; a
first colon-field that parses as a base-10 (optionally negative) integer
yields that uid; any other first field is taken verbatim as the user name;
fields after the first are ignored.  The function is total and never fails. -/
def getUserFromImage (user : String) : Option Int × String :=
  if user = "" then (none, "")
  else
    match parseDec (firstField user).toList with
    | some n => (some n, "")
    | none => (none, firstField user)

/-! ## `prepareStreamingPipes` -/

/-- Flag and permission constants of the underlying open call (Linux
`syscall` values, as asserted by `TestPrepareStreamingPipes`). -/
def O_RDONLY : Nat := 0

def O_WRONLY : Nat := 1

def O_CREAT : Nat := 64

def O_NONBLOCK : Nat := 2048

/-- The fixed permission mode (0700: owner read/write/execute only). -/
def pipePerm : Nat := 448

/-- The open flags used for the stdin pipe (opened for writing, with
creation and non-blocking flags). -/
def stdinOpenFlag : Nat := O_WRONLY ||| O_CREAT ||| O_NONBLOCK

/-- The open flags used for the stdout and stderr pipes (opened for reading,
with creation and non-blocking flags). -/
def readOpenFlag : Nat := O_RDONLY ||| O_CREAT ||| O_NONBLOCK

/-- A handle to an opened named pipe, identified by its path. -/
structure FifoHandle where
  path : String
deriving DecidableEq

/-- The observable events of one `prepareStreamingPipes` invocation against
the OS capability: a pipe was opened (with the flags and permissions passed
to the open call), or a previously opened pipe was closed. -/
inductive PipeEvent
  | opened (path : String) (flag : Nat) (perm : Nat)
  | closed (path : String)
deriving DecidableEq

/-- Open one stream's pipe against the capability `cap` (which returns
`some errorText` for a path whose open fails — including a cancelled
context — and `none` for one that succeeds).  An empty path means "do not
attach this stream" and performs no open. -/
def openPipe (cap : String → Option String) (path : String) (flag : Nat) :
    Except String (Option FifoHandle × List PipeEvent) :=
  if path = "" then .ok (none, [])
  else
    match cap path with
    | some e => .error ("failed to open named pipe " ++ path ++ ": " ++ e)
    | none => .ok (some ⟨path⟩, [.opened path flag pipePerm])

/-- The close events released for a possibly-opened handle. -/
def closeEvents : Option FifoHandle → List PipeEvent
  | none => []
  | some h => [.closed h.path]

/-- Modelled from the spec: `prepareStreamingPipes` (absent from the
repository snapshot; exercised by `TestPrepareStreamingPipes` and
`TestPrepareStreamingPipesError`) opens the requested pipes in the fixed
order stdin, stdout, stderr — write-side for stdin, read-side for the other
two — and on any failure closes every pipe already opened (in reverse order
of opening, the defer pattern) before returning the error with no handles.
Returns `(stdin handle, stdout handle, stderr handle, error, event trace)`. -/
def prepareStreamingPipes (cap : String → Option String)
    (stdin stdout stderr : String) :
    Option FifoHandle × Option FifoHandle × Option FifoHandle ×
      Option String × List PipeEvent :=
  match openPipe cap stdin stdinOpenFlag with
  | .error e => (none, none, none, some e, [])
  | .ok (i, ev1) =>
    match openPipe cap stdout readOpenFlag with
    | .error e => (none, none, none, some e, ev1 ++ closeEvents i)
    | .ok (o, ev2) =>
      match openPipe cap stderr readOpenFlag with
      | .error e =>
        (none, none, none, some e, ev1 ++ ev2 ++ closeEvents o ++ closeEvents i)
      | .ok (er, ev3) => (i, o, er, none, ev1 ++ ev2 ++ ev3)

/-! ## `Status` (from `pkg/server/status.go`) -/

/-- The gRPC health-check serving statuses. -/
inductive ServingStatus
  | unknown
  | serving
  | notServing
deriving DecidableEq

/-- The outcome of the health-check collaborator: a response carrying a
serving status, or a transport error with its text. -/
inductive HealthCheckOutcome
  | response (status : ServingStatus)
  | transportError (msg : String)
deriving DecidableEq

/-- A CRI runtime condition (type, status, reason, message). -/
structure RuntimeCondition where
  type : String
  status : Bool
  reason : String := ""
  message : String := ""
deriving DecidableEq

/-- A CRI runtime status: the list of conditions. -/
structure RuntimeStatus where
  conditions : List RuntimeCondition
deriving DecidableEq

/-- The CRI status response. -/
structure StatusResponse where
  status : RuntimeStatus
deriving DecidableEq

/-- The condition type reported for runtime readiness. -/
def runtimeReady : String := "RuntimeReady"

/-- The condition type reported for network readiness. -/
def networkReady : String := "NetworkReady"

/-- The reason reported when the runtime is not ready
(`status.go:30`). -/
def runtimeNotReadyReason : String := "ContainerdNotReady"

/-- The reason reported when the network is not ready
(`status.go:32`). -/
def networkNotReadyReason : String := "NetworkPluginNotReady"

/-- `Status` from `pkg/server/status.go:36-68`: build the RuntimeReady
condition from the health-check collaborator's outcome (degrading it on a
transport error or a non-serving status), build the NetworkReady condition
from the network plugin's status (`none` = healthy, `some err` = failing),
and return both conditions, in that order, with a nil call error. -/
def Status (health : HealthCheckOutcome) (netStatus : Option String) :
    Option StatusResponse × Option String :=
  let runtimeCondition : RuntimeCondition :=
    match health with
    | .transportError e =>
      { type := runtimeReady, status := false, reason := runtimeNotReadyReason,
        message := "Containerd healthcheck returns error: " ++ e }
    | .response s =>
      if s ≠ ServingStatus.serving then
        { type := runtimeReady, status := false, reason := runtimeNotReadyReason,
          message := "Containerd grpc server is not serving" }
      else { type := runtimeReady, status := true }
  let networkCondition : RuntimeCondition :=
    match netStatus with
    | some e =>
      { type := networkReady, status := false, reason := networkNotReadyReason,
        message := "Network plugin returns error: " ++ e }
    | none => { type := networkReady, status := true }
  (some ⟨⟨[runtimeCondition, networkCondition]⟩⟩, none)

/-- The condition list of a `Status` result. -/
def condsOf (p : Option StatusResponse × Option String) : List RuntimeCondition :=
  match p.1 with
  | some r => r.status.conditions
  | none => []

/-! ## Claim theorems -/

/-- The content digest used by the table-driven tests. -/
def testDigest : String :=
  "sha256:e6693c20186f837fc393390135d8a598a96a833917917789d63766cab6c59582"

/-- C4: `normalizeImageRef` maps "busybox", "busybox:latest",
"library/busybox" and "docker.io/busybox" to the same canonical string
"docker.io/library/busybox:latest", and for a digest-only input it preserves
the digest, adds only the default host and namespace, and adds no tag. -/
theorem normalizeImageRef_busybox_canonical :
    (normalizeImageRef "busybox").map refString =
      some "docker.io/library/busybox:latest" ∧
    (normalizeImageRef "busybox:latest").map refString =
      some "docker.io/library/busybox:latest" ∧
    (normalizeImageRef "library/busybox").map refString =
      some "docker.io/library/busybox:latest" ∧
    (normalizeImageRef "docker.io/busybox").map refString =
      some "docker.io/library/busybox:latest" ∧
    normalizeImageRef ("busybox@" ++ testDigest) =
      some ⟨some "docker.io".toList, "library/busybox".toList, none,
        some testDigest.toList⟩ := by
  decide

/-- C10: for a reference carrying both a tag and a digest,
`normalizeImageRef` drops the tag and keeps only the digest, so the canonical
form is digest-qualified with no tag. -/
theorem normalizeImageRef_tag_and_digest_drops_tag :
    normalizeImageRef ("gcr.io/library/busybox:latest@" ++ testDigest) =
      some ⟨some "gcr.io".toList, "library/busybox".toList, none,
        some testDigest.toList⟩ ∧
    (normalizeImageRef ("gcr.io/library/busybox:latest@" ++ testDigest)).map refString =
      some ("gcr.io/library/busybox@" ++ testDigest) := by
  decide

theorem normalizeImageRef_NF {s : String} {r : RawRef}
    (h : normalizeImageRef s = some r) : NF r := by
  unfold normalizeImageRef parseRef at h
  cases hq : parseRefL s.toList with
  | none => rw [hq] at h; cases h
  | some r₀ =>
    rw [hq] at h
    simp only [Option.map_some'] at h
    exact Option.some.inj h ▸ NF_normalizeParsed hq

/-- C5: for every input string `normalizeImageRef` accepts, the canonical
string of the result re-parses successfully under the same reference
grammar, and normalizing that canonical string again yields the same
reference (hence the same string): normalization is idempotent on its own
output. -/
theorem normalizeImageRef_idempotent (s : String) (r : RawRef)
    (h : normalizeImageRef s = some r) :
    (parseRef (refString r)).isSome = true ∧
    normalizeImageRef (refString r) = some r := by
  have nf : NF r := normalizeImageRef_NF h
  have hre : parseRefL (refCharsL r) = some r := parseRefL_refCharsL nf
  have hlist : (refString r).toList = refCharsL r := rfl
  constructor
  · unfold parseRef
    rw [hlist, hre]
    rfl
  · unfold normalizeImageRef parseRef
    rw [hlist, hre]
    simp [normalizeParsed_NF nf]

/-- The normalized form of "busybox", used to witness idempotence at a
concrete input. -/
def busyboxNormalized : RawRef :=
  ⟨some "docker.io".toList, "library/busybox".toList, some "latest".toList, none⟩

/-- Witness for C5: idempotence holds at the concrete input "busybox". -/
theorem normalizeImageRef_idempotent_witness :
    (parseRef (refString busyboxNormalized)).isSome = true ∧
    normalizeImageRef (refString busyboxNormalized) = some busyboxNormalized :=
  normalizeImageRef_idempotent "busybox" busyboxNormalized (by decide)

/-- C3: `getRepoDigestAndTag` follows the decision table over normalized
references: a digest-carrying reference yields an empty repo tag and its own
digest-qualified string as repo digest; a tag-only reference (the only other
normalized shape — the second conjunct) yields the tagged reference as repo
tag, and `name@digest` as repo digest unless the manifest was schema 1, in
which case the repo digest is empty. -/
theorem getRepoDigestAndTag_decision_table (s : String) (r : RawRef)
    (d : String) (schema1 : Bool) (h : normalizeImageRef s = some r) :
    (∀ dg, r.digest = some dg →
      getRepoDigestAndTag r d schema1 = (refString r, "")) ∧
    (r.digest = none → r.tag.isSome = true) ∧
    (r.digest = none → schema1 = false →
      getRepoDigestAndTag r d schema1 = (nameString r ++ "@" ++ d, refString r)) ∧
    (r.digest = none → schema1 = true →
      getRepoDigestAndTag r d schema1 = ("", refString r)) := by
  have nf : NF r := normalizeImageRef_NF h
  refine ⟨?_, ?_, ?_, ?_⟩
  · intro dg hdg
    simp [getRepoDigestAndTag, hdg]
  · intro hdnone
    rcases nf.shape with ⟨t, ht, -, -⟩ | ⟨d', hd', -, -⟩
    · rw [ht]; rfl
    · rw [hd'] at hdnone; cases hdnone
  · intro hdnone hs1
    simp [getRepoDigestAndTag, hdnone, hs1]
  · intro hdnone hs1
    simp [getRepoDigestAndTag, hdnone, hs1]

/-- The normalized form of "gcr.io/library/busybox:latest", used to witness
the decision table at a concrete input. -/
def busyboxTagged : RawRef :=
  ⟨some "gcr.io".toList, "library/busybox".toList, some "latest".toList, none⟩

/-- Witness for C3: the tag-only, schema1 = false row at a concrete input. -/
theorem getRepoDigestAndTag_decision_table_witness :
    getRepoDigestAndTag busyboxTagged testDigest false =
      (nameString busyboxTagged ++ "@" ++ testDigest, refString busyboxTagged) :=
  (getRepoDigestAndTag_decision_table "gcr.io/library/busybox:latest"
    busyboxTagged testDigest false (by decide)).2.2.1 rfl rfl

/-- C6: `getUserFromImage` is total and never fails; the empty string yields
no uid and no name; a first colon-field that parses as a base-10 (optionally
negative) integer yields that uid and no name; otherwise the name is the
first field verbatim with no uid (so later fields are always ignored: the
result depends only on the first field); and at most one of uid and name is
ever populated. -/
theorem getUserFromImage_total_spec (u : String) :
    (u = "" → getUserFromImage u = (none, "")) ∧
    (∀ n, parseDec (firstField u).toList = some n →
      getUserFromImage u = (some n, "")) ∧
    (u ≠ "" → parseDec (firstField u).toList = none →
      getUserFromImage u = (none, firstField u)) ∧
    ((getUserFromImage u).1 = none ∨ (getUserFromImage u).2 = "") := by
  by_cases hu : u = ""
  · subst hu
    refine ⟨fun _ => rfl, ?_, fun habs _ => absurd rfl habs, Or.inl rfl⟩
    intro n hn
    have hcon : (none : Option Int) = some n := hn
    exact Option.noConfusion hcon
  · cases hp : parseDec (firstField u).toList with
    | some n =>
      have key : getUserFromImage u = (some n, "") := by
        unfold getUserFromImage
        rw [if_neg hu, hp]
      refine ⟨fun he => absurd he hu, ?_, ?_, ?_⟩
      · intro n' hn'
        obtain rfl := Option.some.inj hn'
        exact key
      · intro _ hnone
        exact Option.noConfusion hnone
      · rw [key]
        exact Or.inr rfl
    | none =>
      have key : getUserFromImage u = (none, firstField u) := by
        unfold getUserFromImage
        rw [if_neg hu, hp]
      refine ⟨fun he => absurd he hu, ?_, fun _ _ => key, ?_⟩
      · intro n' hn'
        exact Option.noConfusion hn'
      · rw [key]
        exact Or.inl rfl

/-- C2: `Status` always returns exactly two conditions, in the fixed order
RuntimeReady then NetworkReady, one condition per kind, for every outcome of
the health-check and network-plugin collaborators (including both failing
simultaneously). -/
theorem Status_two_conditions (health : HealthCheckOutcome)
    (net : Option String) :
    (condsOf (Status health net)).length = 2 ∧
    (condsOf (Status health net)).map RuntimeCondition.type =
      [runtimeReady, networkReady] ∧
    runtimeReady ≠ networkReady := by
  refine ⟨?_, ?_, by decide⟩ <;>
  · cases health with
    | response s => cases s <;> cases net <;> rfl
    | transportError e => cases net <;> rfl

/-- C7 (amended): the RuntimeReady condition of `Status` is ready with empty
reason and message when the health check reports serving; otherwise it is not
ready with reason "ContainerdNotReady", and the message is "Containerd
healthcheck returns error: " followed by the transport-error text when the
query errored, or the fixed string "Containerd grpc server is not serving"
when the response was non-serving. -/
theorem Status_runtime_condition (health : HealthCheckOutcome)
    (net : Option String) :
    (health = .response .serving →
      (condsOf (Status health net)).head? =
        some ⟨runtimeReady, true, "", ""⟩) ∧
    (∀ st, health = .response st → st ≠ .serving →
      (condsOf (Status health net)).head? =
        some ⟨runtimeReady, false, runtimeNotReadyReason,
          "Containerd grpc server is not serving"⟩) ∧
    (∀ e, health = .transportError e →
      (condsOf (Status health net)).head? =
        some ⟨runtimeReady, false, runtimeNotReadyReason,
          "Containerd healthcheck returns error: " ++ e⟩) := by
  refine ⟨?_, ?_, ?_⟩
  · rintro rfl
    cases net <;> rfl
  · rintro st rfl hne
    cases st with
    | serving => exact absurd rfl hne
    | unknown => cases net <;> rfl
    | notServing => cases net <;> rfl
  · rintro e rfl
    cases net <;> rfl

/-- Counterexample for C7 as stated: at the concrete non-serving and
transport-error outcomes, the message is neither the literal "server is not
serving." nor the bare transport-error text — the code uses the fixed string
"Containerd grpc server is not serving" and wraps the error text in
"Containerd healthcheck returns error: ". -/
theorem Status_runtime_message_counterexample :
    (condsOf (Status (.response .notServing) none)).head? =
      some ⟨runtimeReady, false, runtimeNotReadyReason,
        "Containerd grpc server is not serving"⟩ ∧
    "Containerd grpc server is not serving" ≠ "server is not serving." ∧
    "Containerd grpc server is not serving" ≠ "server is not serving" ∧
    (condsOf (Status (.transportError "connection error") none)).head? =
      some ⟨runtimeReady, false, runtimeNotReadyReason,
        "Containerd healthcheck returns error: connection error"⟩ ∧
    "Containerd healthcheck returns error: connection error" ≠
      "connection error" := by
  decide

/-- C8: `Status` never fails as a whole because of a collaborator error: for
every outcome of the two collaborators it returns a response and a nil call
error, and collaborator errors are folded into the corresponding condition's
fields instead (so the set of outright failure modes of the embedded call is
empty, a fortiori contained in cancellation of the enclosing context). -/
theorem Status_never_fails_from_collaborators (health : HealthCheckOutcome)
    (net : Option String) :
    (Status health net).2 = none ∧
    (Status health net).1.isSome = true ∧
    (∀ e, health = .transportError e →
      (condsOf (Status health net)).head? =
        some ⟨runtimeReady, false, runtimeNotReadyReason,
          "Containerd healthcheck returns error: " ++ e⟩) ∧
    (∀ e, net = some e →
      (condsOf (Status health net)).getLast? =
        some ⟨networkReady, false, networkNotReadyReason,
          "Network plugin returns error: " ++ e⟩) := by
  refine ⟨rfl, rfl, ?_, ?_⟩
  · rintro e rfl
    cases net <;> rfl
  · rintro e rfl
    cases health with
    | response s => cases s <;> rfl
    | transportError e' => rfl

theorem openPipe_ok {cap : String → Option String} {p : String} {flag : Nat}
    {i : Option FifoHandle} {ev : List PipeEvent}
    (h : openPipe cap p flag = .ok (i, ev)) :
    (i = none ∧ ev = []) ∨
    (i = some ⟨p⟩ ∧ ev = [.opened p flag pipePerm]) := by
  unfold openPipe at h
  split at h
  · left
    simp only [Except.ok.injEq, Prod.mk.injEq] at h
    exact ⟨h.1.symm, h.2.symm⟩
  · split at h
    · cases h
    · right
      simp only [Except.ok.injEq, Prod.mk.injEq] at h
      exact ⟨h.1.symm, h.2.symm⟩

/-- C1: for every behavior of the pipe-open capability (an open failure or a
cancelled context both surface as a capability error), if
`prepareStreamingPipes` returns an error then no handle is returned for any
of the three streams, and every pipe opened during the invocation has been
closed in its event trace before the error is returned. -/
theorem prepareStreamingPipes_error_cleanup (cap : String → Option String)
    (si so se : String)
    (h : ((prepareStreamingPipes cap si so se).2.2.2.1).isSome = true) :
    (prepareStreamingPipes cap si so se).1 = none ∧
    (prepareStreamingPipes cap si so se).2.1 = none ∧
    (prepareStreamingPipes cap si so se).2.2.1 = none ∧
    (∀ p f pm,
      PipeEvent.opened p f pm ∈ (prepareStreamingPipes cap si so se).2.2.2.2 →
      PipeEvent.closed p ∈ (prepareStreamingPipes cap si so se).2.2.2.2) := by
  unfold prepareStreamingPipes at h ⊢
  cases h1 : openPipe cap si stdinOpenFlag with
  | error e =>
    simp only [h1]
    refine ⟨trivial, trivial, trivial, ?_⟩
    intro p f pm hm
    simp at hm
  | ok pr =>
    obtain ⟨i, ev1⟩ := pr
    cases h2 : openPipe cap so readOpenFlag with
    | error e =>
      simp only [h1, h2]
      refine ⟨trivial, trivial, trivial, ?_⟩
      intro p f pm hm
      rcases openPipe_ok h1 with ⟨hi, hev⟩ | ⟨hi, hev⟩ <;> subst hi <;> subst hev
      · simp [closeEvents] at hm
      · simp [closeEvents] at hm ⊢
        exact hm.1
    | ok pr2 =>
      obtain ⟨o, ev2⟩ := pr2
      cases h3 : openPipe cap se readOpenFlag with
      | error e =>
        simp only [h1, h2, h3]
        refine ⟨trivial, trivial, trivial, ?_⟩
        intro p f pm hm
        rcases openPipe_ok h1 with ⟨hi, hev⟩ | ⟨hi, hev⟩ <;> subst hi <;> subst hev <;>
          rcases openPipe_ok h2 with ⟨ho, hev2⟩ | ⟨ho, hev2⟩ <;> subst ho <;> subst hev2 <;>
          simp [closeEvents] at hm ⊢
        · exact hm.1
        · exact hm.1
        · rcases hm with ⟨rfl, -⟩ | ⟨rfl, -⟩
          · exact Or.inr rfl
          · exact Or.inl rfl
      | ok pr3 =>
        obtain ⟨er, ev3⟩ := pr3
        rw [h1, h2, h3] at h
        simp at h

/-- A capability whose stdout open fails, as in
`TestPrepareStreamingPipesError`. -/
def capStdoutFail : String → Option String :=
  fun p => if p = "/test/stdout" then some "stdout error" else none

/-- Witness for C1: with the stdout open failing, the already-opened stdin
pipe is closed and no handle is returned. -/
theorem prepareStreamingPipes_error_cleanup_witness :
    (prepareStreamingPipes capStdoutFail "/test/stdin" "/test/stdout"
      "/test/stderr").1 = none ∧
    (prepareStreamingPipes capStdoutFail "/test/stdin" "/test/stdout"
      "/test/stderr").2.1 = none ∧
    (prepareStreamingPipes capStdoutFail "/test/stdin" "/test/stdout"
      "/test/stderr").2.2.1 = none ∧
    PipeEvent.closed "/test/stdin" ∈
      (prepareStreamingPipes capStdoutFail "/test/stdin" "/test/stdout"
        "/test/stderr").2.2.2.2 := by
  have h := prepareStreamingPipes_error_cleanup capStdoutFail "/test/stdin"
    "/test/stdout" "/test/stderr" (by decide)
  exact ⟨h.1, h.2.1, h.2.2.1,
    h.2.2.2 "/test/stdin" stdinOpenFlag pipePerm (by decide)⟩

theorem openPipe_of_cap_none {cap : String → Option String} {p : String}
    (flag : Nat) (h : cap p = none) :
    openPipe cap p flag =
      if p = "" then .ok (none, [])
      else .ok (some ⟨p⟩, [.opened p flag pipePerm]) := by
  unfold openPipe
  split
  · rfl
  · rw [h]

/-- C9: when every requested open succeeds, `prepareStreamingPipes` succeeds
(nil error), returns a handle for a stream iff the corresponding path is
non-empty, and its event trace opens exactly the non-empty paths, in the
fixed order stdin, stdout, stderr, with the write-side creation/non-blocking
flags for stdin, the read-side ones for stdout and stderr, and permission
mode 0700; with all three paths empty the trace is empty (zero opens). -/
theorem prepareStreamingPipes_success (cap : String → Option String)
    (si so se : String) (hsi : cap si = none) (hso : cap so = none)
    (hse : cap se = none) :
    (prepareStreamingPipes cap si so se).2.2.2.1 = none ∧
    ((prepareStreamingPipes cap si so se).1.isSome = true ↔ si ≠ "") ∧
    ((prepareStreamingPipes cap si so se).2.1.isSome = true ↔ so ≠ "") ∧
    ((prepareStreamingPipes cap si so se).2.2.1.isSome = true ↔ se ≠ "") ∧
    (prepareStreamingPipes cap si so se).2.2.2.2 =
      (if si = "" then [] else [PipeEvent.opened si stdinOpenFlag pipePerm]) ++
      (if so = "" then [] else [PipeEvent.opened so readOpenFlag pipePerm]) ++
      (if se = "" then [] else [PipeEvent.opened se readOpenFlag pipePerm]) := by
  unfold prepareStreamingPipes
  rw [openPipe_of_cap_none stdinOpenFlag hsi, openPipe_of_cap_none readOpenFlag hso,
    openPipe_of_cap_none readOpenFlag hse]
  by_cases h1 : si = "" <;> by_cases h2 : so = "" <;> by_cases h3 : se = "" <;>
    simp [h1, h2, h3]

/-- A capability for which every open succeeds. -/
def capAllOk : String → Option String := fun _ => none

/-- Witness for C9: the all-paths and all-empty cases at concrete inputs. -/
theorem prepareStreamingPipes_success_witness :
    (prepareStreamingPipes capAllOk "/test/stdin" "/test/stdout"
      "/test/stderr").2.2.2.1 = none ∧
    (prepareStreamingPipes capAllOk "/test/stdin" "/test/stdout"
      "/test/stderr").2.2.2.2 =
      [PipeEvent.opened "/test/stdin" stdinOpenFlag pipePerm,
       PipeEvent.opened "/test/stdout" readOpenFlag pipePerm,
       PipeEvent.opened "/test/stderr" readOpenFlag pipePerm] ∧
    (prepareStreamingPipes capAllOk "" "" "").2.2.2.1 = none ∧
    (prepareStreamingPipes capAllOk "" "" "").2.2.2.2 = [] := by
  have h1 := prepareStreamingPipes_success capAllOk "/test/stdin" "/test/stdout"
    "/test/stderr" rfl rfl rfl
  have h2 := prepareStreamingPipes_success capAllOk "" "" "" rfl rfl rfl
  refine ⟨h1.1, ?_, h2.1, ?_⟩
  · rw [h1.2.2.2.2]
    rfl
  · rw [h2.2.2.2.2]
    rfl
